import Mathlib

/-!
# Verification of the nRF52 SPIM transport and ST7735 display driver

Shallow embedding of `src/utilities/src/spi.rs` (the `Spim` DMA transport)
and `src/utilities/src/st7735s.rs` (the ST7735 command/data protocol
driver), together with proofs about the properties stated in the
specification.

Buffers handed to the DMA engine are modelled as a start address (`ptr`)
paired with their byte content (`data`); bytes and 16-bit words are
modelled as `Nat` (the source types `u8`/`u16` bound them by construction,
and every theorem that needs the bound carries it as a hypothesis).
A physical DMA transaction is modelled by the pair of descriptors the
driver programs into the TXD/RXD registers: the transmitted bytes and the
requested receive length.  Rust panics (out-of-bounds slice indexing) are
modelled by `Option`, fallible driver calls by `Except Error`.
-/

/-- `EASY_DMA_SIZE` from spi.rs: the DMA length-register limit. -/
def EASY_DMA_SIZE : Nat := 65535

/-- `SRAM_LOWER` from spi.rs: lower bound of the DMA-addressable RAM. -/
def SRAM_LOWER : Nat := 0x20000000

/-- `SRAM_UPPER` from spi.rs: (exclusive) upper bound of the DMA-addressable RAM. -/
def SRAM_UPPER : Nat := 0x30000000

/-- `FORCE_COPY_BUFFER_SIZE` from spi.rs: size of the stack bounce buffer. -/
def FORCE_COPY_BUFFER_SIZE : Nat := 1024

/-- A Rust byte slice: its start address and its bytes. -/
structure Buffer where
  ptr : Nat
  data : List Nat
  deriving DecidableEq

/-- `slice_in_ram` from spi.rs:
`ptr >= SRAM_LOWER && (ptr + slice.len()) < SRAM_UPPER`. -/
def slice_in_ram (b : Buffer) : Bool :=
  decide (SRAM_LOWER ≤ b.ptr) && decide (b.ptr + b.data.length < SRAM_UPPER)

/-- The `Error` enum from spi.rs. -/
inductive Error where
  | TxBufferTooLong
  | RxBufferTooLong
  | DMABufferNotInDataMemory
  | Transmit
  | Receive
  deriving DecidableEq

/-- `slice_in_ram_or` from spi.rs. -/
def slice_in_ram_or (b : Buffer) (e : Error) : Except Error Unit :=
  if slice_in_ram b then .ok () else .error e

/-- One physical SPIM DMA transaction, as programmed by
`do_spi_dma_transfer`: the bytes behind the TXD descriptor and the length
of the RXD descriptor (`DmaSlice::null()` on a side is `tx = []`,
resp. `rxLen = 0`). -/
structure Txn where
  tx : List Nat
  rxLen : Nat
  deriving DecidableEq

/-- Model of Rust's `slice::chunks(n)` (recursion on an explicit fuel that
starts at the list length; each step consumes at least one element when
`0 < n`, so the fuel never runs out on the calls below). -/
def chunksGo (n : Nat) : Nat → List Nat → List (List Nat)
  | _, [] => []
  | 0, _ :: _ => []
  | fuel + 1, x :: xs => ((x :: xs).take n) :: chunksGo n fuel ((x :: xs).drop n)

/-- Rust `slice.chunks(n)` collected into a list: pieces of `n` elements,
the last piece possibly shorter, no empty pieces. -/
def chunksOf (n : Nat) (l : List Nat) : List (List Nat) :=
  chunksGo n l.length l

theorem chunksGo_nil (n fuel : Nat) : chunksGo n fuel [] = [] := by
  cases fuel <;> rfl

theorem chunksGo_join (n : Nat) (hn : 0 < n) (fuel : Nat) :
    ∀ l : List Nat, l.length ≤ fuel → (chunksGo n fuel l).flatten = l := by
  induction fuel with
  | zero =>
    intro l h
    have hl : l = [] := List.eq_nil_of_length_eq_zero (Nat.le_zero.mp h)
    subst hl
    simp [chunksGo]
  | succ fuel ih =>
    intro l h
    cases l with
    | nil => simp [chunksGo]
    | cons x xs =>
      show (((x :: xs).take n) :: chunksGo n fuel ((x :: xs).drop n)).flatten = x :: xs
      rw [List.flatten_cons, ih ((x :: xs).drop n) ?_, List.take_append_drop]
      have hd : ((x :: xs).drop n).length = (x :: xs).length - n := List.length_drop n _
      simp only [List.length_cons] at h hd ⊢
      omega

/-- Every chunk of `chunksOf n l` concatenated back gives `l`. -/
theorem chunksOf_join (n : Nat) (hn : 0 < n) (l : List Nat) :
    (chunksOf n l).flatten = l :=
  chunksGo_join n hn l.length l (Nat.le_refl _)

theorem chunksGo_sizes (n fuel : Nat) :
    ∀ l : List Nat, ∀ c ∈ chunksGo n fuel l, c.length ≤ n := by
  induction fuel with
  | zero =>
    intro l c hc
    cases l with
    | nil => simp [chunksGo] at hc
    | cons x xs => simp [chunksGo] at hc
  | succ fuel ih =>
    intro l c hc
    cases l with
    | nil => simp [chunksGo] at hc
    | cons x xs =>
      have hc' : c ∈ ((x :: xs).take n) :: chunksGo n fuel ((x :: xs).drop n) := hc
      rcases List.mem_cons.mp hc' with hc1 | hc1
      · subst hc1
        exact List.length_take_le n _
      · exact ih _ c hc1

/-- Every chunk produced by `chunksOf n` has at most `n` elements. -/
theorem chunksOf_sizes (n : Nat) (l : List Nat) :
    ∀ c ∈ chunksOf n l, c.length ≤ n :=
  chunksGo_sizes n l.length l

theorem chunksGo_length (n : Nat) (hn : 0 < n) (fuel : Nat) :
    ∀ l : List Nat, l.length ≤ fuel →
      (chunksGo n fuel l).length = (l.length + n - 1) / n := by
  induction fuel with
  | zero =>
    intro l h
    have hl : l = [] := List.eq_nil_of_length_eq_zero (Nat.le_zero.mp h)
    subst hl
    simp [chunksGo, Nat.div_eq_of_lt (by omega : n - 1 < n)]
  | succ fuel ih =>
    intro l h
    cases l with
    | nil => simp [chunksGo, Nat.div_eq_of_lt (by omega : n - 1 < n)]
    | cons x xs =>
      show (((x :: xs).take n) :: chunksGo n fuel ((x :: xs).drop n)).length = _
      rw [List.length_cons, ih ((x :: xs).drop n) ?_]
      · have hd : ((x :: xs).drop n).length = (x :: xs).length - n := List.length_drop n _
        rw [hd]
        set m := (x :: xs).length with hm
        have hm1 : 1 ≤ m := by simp [hm]
        -- (m - n + n - 1) / n + 1 = (m + n - 1) / n, with 1 ≤ m, 1 ≤ n
        rcases Nat.le_total m n with hle | hle
        · have h1 : m - n + n - 1 = n - 1 := by omega
          have h2 : m + n - 1 = (m - 1) + n := by omega
          rw [h1, h2, Nat.add_div_right _ hn, Nat.div_eq_of_lt (by omega : n - 1 < n),
            Nat.div_eq_of_lt (by omega : m - 1 < n)]
        · have h1 : m - n + n - 1 = (m - n) + n - 1 := rfl
          have h2 : m + n - 1 = ((m - n) + n - 1) + n := by omega
          rw [h1, h2, Nat.add_div_right _ hn]
      · have hd : ((x :: xs).drop n).length = (x :: xs).length - n := List.length_drop n _
        simp only [List.length_cons] at h hd ⊢
        omega

/-- `chunksOf n l` produces `⌈l.length / n⌉` chunks. -/
theorem chunksOf_length (n : Nat) (hn : 0 < n) (l : List Nat) :
    (chunksOf n l).length = (l.length + n - 1) / n :=
  chunksGo_length n hn l.length l (Nat.le_refl _)

/-- A nonempty list that fits in one chunk is its own single chunk. -/
theorem chunksOf_single (n : Nat) (l : List Nat) (h0 : l ≠ []) (h : l.length ≤ n) :
    chunksOf n l = [l] := by
  cases l with
  | nil => exact absurd rfl h0
  | cons x xs =>
    show chunksGo n (xs.length + 1) (x :: xs) = [x :: xs]
    have hn : n ≠ 0 := by
      intro h'
      subst h'
      simp at h
    cases n with
    | zero => exact absurd rfl hn
    | succ n =>
      show ((x :: xs).take (n + 1)) :: chunksGo (n + 1) xs.length ((x :: xs).drop (n + 1)) = _
      rw [List.take_of_length_le h, List.drop_eq_nil_of_le h, chunksGo_nil]

/-- The `.map(|c| Some(c)).chain(repeat_with(|| None))` stream of
`transfer_split_uneven`, cut off at `k` entries (the `take_while` below
never looks past the first `none`, so padding with `none` up to any
sufficient length is equivalent to the infinite chain). -/
def padNone (k : Nat) (l : List (Option (List Nat))) : List (Option (List Nat)) :=
  l ++ List.replicate (k - l.length) none

theorem padNone_cons (k : Nat) (z : Option (List Nat)) (l : List (Option (List Nat))) :
    padNone k (z :: l) = z :: padNone (k - 1) l := by
  simp only [padNone, List.length_cons, List.cons_append, List.cons.injEq, true_and]
  have : k - (l.length + 1) = k - 1 - l.length := by omega
  rw [this]

/-- The `take_while(|(t, r)| t.is_some() && r.is_some())` of the zipped,
`none`-padded chunk streams keeps exactly the zip of the two original
chunk lists. -/
theorem padZip_takeWhile (a : List (List Nat)) :
    ∀ (b : List (List Nat)) (k : Nat),
      ((padNone k (a.map some)).zip (padNone k (b.map some))).takeWhile
        (fun p => p.1.isSome && p.2.isSome)
      = (a.zip b).map (fun p => (some p.1, some p.2)) := by
  induction a with
  | nil =>
    intro b k
    cases k with
    | zero => simp [padNone]
    | succ k =>
      cases hb : padNone (k + 1) (b.map some) with
      | nil => simp [padNone, List.replicate_succ]
      | cons y ys => simp [padNone, List.replicate_succ, hb, List.takeWhile_cons]
  | cons x xs ih =>
    intro b k
    cases b with
    | nil =>
      cases k with
      | zero => simp [padNone]
      | succ k =>
        simp [padNone, List.replicate_succ, List.takeWhile_cons]
    | cons y ys =>
      rw [List.map_cons, List.map_cons, padNone_cons, padNone_cons, List.zip_cons_cons,
        List.takeWhile_cons]
      simp only [Option.isSome_some, Bool.and_self, if_true]
      rw [ih ys (k - 1)]
      rfl

namespace Spim

/-- `Spim::transfer_split_uneven` from spi.rs: guard `tx` with
`slice_in_ram_or`, chunk both sides at `EASY_DMA_SIZE`, extend each chunk
stream with `none`s, zip, `take_while` both sides are `some`, and turn
each pair into DMA descriptors (`DmaSlice::null()` past an end).  The
receive buffer is a mutable slice and hence always in RAM; only its bytes
are needed here. -/
def transfer_split_uneven (tx : Buffer) (rx : List Nat) : Except Error (List Txn) :=
  match slice_in_ram_or tx .DMABufferNotInDataMemory with
  | .error e => .error e
  | .ok _ =>
    let txi := (chunksOf EASY_DMA_SIZE tx.data).map some
    let rxi := (chunksOf EASY_DMA_SIZE rx).map some
    let len := max txi.length rxi.length
    let pairs := ((padNone len txi).zip (padNone len rxi)).takeWhile
      (fun p => p.1.isSome && p.2.isSome)
    .ok (pairs.map (fun p => ⟨p.1.getD [], (p.2.getD []).length⟩))

/-- `Spim::transfer_split_even` from spi.rs: chunk both sides at
`EASY_DMA_SIZE` and zip (stopping at the shorter side). -/
def transfer_split_even (tx : Buffer) (rx : List Nat) : Except Error (List Txn) :=
  match slice_in_ram_or tx .DMABufferNotInDataMemory with
  | .error e => .error e
  | .ok _ =>
    .ok (((chunksOf EASY_DMA_SIZE tx.data).zip (chunksOf EASY_DMA_SIZE rx)).map
      (fun p => ⟨p.1, p.2.length⟩))

/-- `Spim::write` from spi.rs: guard, then
`transfer_split_uneven(tx_buffer, &mut [0u8; 0])`. -/
def write (tx : Buffer) : Except Error (List Txn) :=
  match slice_in_ram_or tx .DMABufferNotInDataMemory with
  | .error e => .error e
  | .ok _ => transfer_split_uneven tx []

/-- `Spim::write_dc` from spi.rs: guard, set the DCX count register, then a
single DMA transaction with the whole buffer transmitted and a null
receive descriptor.  The DCX count only drives the command/data select
line; it does not change the transaction descriptors. -/
def write_dc (tx : Buffer) (command_bytes : Nat) : Except Error (List Txn) :=
  match slice_in_ram_or tx .DMABufferNotInDataMemory with
  | .error e => .error e
  | .ok _ =>
    let _ := command_bytes
    .ok [⟨tx.data, 0⟩]

/-- Outcome of the in-place `Spim::transfer`: the transactions issued, the
buffer contents after the call, and the returned result.  An error leaves
`txns = []` and the contents untouched, exactly mirroring the early
return before any DMA programming in the source. -/
structure TransferOut where
  txns : List Txn
  buffer : List Nat
  res : Except Error Unit

/-- `Spim::transfer` from spi.rs: guard, then one in-place transaction per
`EASY_DMA_SIZE` chunk (same slice as TXD and RXD).  The bytes the slave
puts on the wire are not determined by the driver; they are modelled from
the spec as an ambient response stream `resp`, written back into the
buffer position by position. -/
def transfer (resp : Nat → Nat) (buf : Buffer) : TransferOut :=
  if slice_in_ram buf then
    { txns := (chunksOf EASY_DMA_SIZE buf.data).map (fun c => ⟨c, c.length⟩),
      buffer := (List.range buf.data.length).map resp,
      res := .ok () }
  else
    { txns := [], buffer := buf.data, res := .error .DMABufferNotInDataMemory }

end Spim

/-- On an addressable `tx`, `transfer_split_uneven` (with its `&&` in the
`take_while`) degenerates to the plain zip of the two chunk lists. -/
theorem uneven_ok (tx : Buffer) (rx : List Nat) (h : slice_in_ram tx = true) :
    Spim.transfer_split_uneven tx rx =
      .ok (((chunksOf EASY_DMA_SIZE tx.data).zip (chunksOf EASY_DMA_SIZE rx)).map
        (fun p => ⟨p.1, p.2.length⟩)) := by
  unfold Spim.transfer_split_uneven slice_in_ram_or
  rw [h]
  simp only [if_true]
  rw [padZip_takeWhile]
  rw [List.map_map]
  rfl

/-- `Spim::spi_dma_copy` from spi.rs, transmit side: stage the chunk
through the stack bounce buffer `[0u8; FORCE_COPY_BUFFER_SIZE]`
(`buf[..chunk.len()].copy_from_slice(chunk)`, a panic — `none` — if the
chunk exceeds the buffer) and transmit `&buf[..chunk.len()]`. -/
def spi_dma_copy_tx (chunk : List Nat) : Option (List Nat) :=
  if chunk.length ≤ FORCE_COPY_BUFFER_SIZE then
    some ((chunk ++ (List.replicate FORCE_COPY_BUFFER_SIZE 0).drop chunk.length).take
      chunk.length)
  else
    none

/-- `try_for_each` over chunks, collecting each step's transmitted bytes;
`none` aborts at the first panicking step. -/
def tryMap (f : List Nat → Option (List Nat)) : List (List Nat) → Option (List (List Nat))
  | [] => some []
  | c :: cs =>
    match f c with
    | some r => (tryMap f cs).map (fun rs => r :: rs)
    | none => none

theorem tryMap_of_forall (f : List Nat → Option (List Nat)) (l : List (List Nat))
    (h : ∀ c ∈ l, f c = some c) : tryMap f l = some l := by
  induction l with
  | nil => rfl
  | cons c cs ih =>
    have hc : f c = some c := h c (List.mem_cons_self c cs)
    have hcs : tryMap f cs = some cs := ih (fun d hd => h d (List.mem_cons_of_mem c hd))
    simp [tryMap, hc, hcs]

/-- The `embedded_hal::blocking::spi::Write` impl of `write` from spi.rs
(lines 97–115): classify the buffer with `slice_in_ram`, pick the chunk
size (`FORCE_COPY_BUFFER_SIZE` with bounce copying when out of RAM,
`EASY_DMA_SIZE` directly otherwise) and run one transmit-only DMA
transaction per chunk.  This path constructs no `Error` value at all (the
only failures it could forward are the hardware amount checks, which the
embedding takes as always passing); a Rust panic in the bounce copy is
`none`. -/
def Spim.hal_write (buf : Buffer) : Option (List Txn) :=
  let needs_copy := !(slice_in_ram buf)
  let chunk_sz := if needs_copy then FORCE_COPY_BUFFER_SIZE else EASY_DMA_SIZE
  let step : List Nat → Option (List Nat) :=
    if needs_copy then spi_dma_copy_tx else fun c => some c
  (tryMap step (chunksOf chunk_sz buf.data)).map (fun ts => ts.map (fun t => ⟨t, 0⟩))

/-- All bytes put on the wire by a sequence of transactions, `none` when
the call panicked. -/
def sentBytes (o : Option (List Txn)) : Option (List Nat) :=
  o.map (fun ts => (ts.map Txn.tx).flatten)

/-- The call completed and every transaction transmits at most `n` bytes
with a null receive descriptor. -/
def piecesWithin (o : Option (List Txn)) (n : Nat) : Bool :=
  match o with
  | none => false
  | some ts => ts.all (fun t => decide (t.tx.length ≤ n) && decide (t.rxLen = 0))

/-- Number of physical transactions a fallible call issued. -/
def txnCount (r : Except Error (List Txn)) : Option Nat :=
  match r with
  | .ok ts => some ts.length
  | .error _ => none

/-- Modelled from the spec: what the SPIM peripheral clocks out on the
wire for one transaction — the TXD bytes, then the over-read character
(ORC) as filler while the receive side still expects bytes. -/
def wireTx (orc : Nat) (t : Txn) : List Nat :=
  t.tx ++ List.replicate (t.rxLen - t.tx.length) orc

/-- C1: For every buffer lying entirely outside the addressable RAM region,
the `embedded_hal::blocking::spi::Write::write` impl succeeds, the
peripheral receives byte-identical content to the original buffer, every
piece routed through the stack bounce buffer is at most
`FORCE_COPY_BUFFER_SIZE` (1024) bytes with a null receive descriptor, and
no buffer-location error is raised on this path. -/
theorem c1_hal_write_outside_ram (buf : Buffer)
    (h : buf.ptr + buf.data.length ≤ SRAM_LOWER ∨ SRAM_UPPER ≤ buf.ptr) :
    sentBytes (Spim.hal_write buf) = some buf.data ∧
    piecesWithin (Spim.hal_write buf) FORCE_COPY_BUFFER_SIZE = true := by
  by_cases hram : slice_in_ram buf = true
  · -- only possible when the buffer is empty and starts exactly at SRAM_LOWER
    have hcomp : SRAM_LOWER ≤ buf.ptr ∧ buf.ptr + buf.data.length < SRAM_UPPER := by
      simpa [slice_in_ram] using hram
    have hnil : buf.data = [] := by
      apply List.eq_nil_of_length_eq_zero
      rcases h with h | h
      · omega
      · omega
    simp [Spim.hal_write, hram, hnil, chunksOf, chunksGo_nil, tryMap, sentBytes, piecesWithin]
  · have hram' : slice_in_ram buf = false := by
      cases hb : slice_in_ram buf
      · rfl
      · exact absurd hb hram
    have hstep : ∀ c ∈ chunksOf FORCE_COPY_BUFFER_SIZE buf.data,
        spi_dma_copy_tx c = some c := by
      intro c hc
      have hle := chunksOf_sizes _ _ c hc
      rw [spi_dma_copy_tx, if_pos hle]
      exact congrArg some (List.take_left c _)
    have htm := tryMap_of_forall spi_dma_copy_tx _ hstep
    have hw : Spim.hal_write buf =
        some ((chunksOf FORCE_COPY_BUFFER_SIZE buf.data).map (fun t => (⟨t, 0⟩ : Txn))) := by
      simp [Spim.hal_write, hram', htm]
    rw [hw]
    constructor
    · simp only [sentBytes, Option.map_some', Option.some.injEq, List.map_map,
        Function.comp_def, List.map_id']
      exact chunksOf_join FORCE_COPY_BUFFER_SIZE (by rw [FORCE_COPY_BUFFER_SIZE]; omega) _
    · simp only [piecesWithin, List.all_eq_true]
      intro t ht
      rcases List.mem_map.mp ht with ⟨c, hc, hct⟩
      subst hct
      simp only [Bool.and_eq_true, decide_eq_true_eq]
      exact ⟨chunksOf_sizes _ _ c hc, trivial⟩

theorem c1_hal_write_outside_ram_witness :
    ((Buffer.mk 0 [1, 2, 3]).ptr + (Buffer.mk 0 [1, 2, 3]).data.length ≤ SRAM_LOWER ∨
      SRAM_UPPER ≤ (Buffer.mk 0 [1, 2, 3]).ptr) ∧
    (sentBytes (Spim.hal_write (Buffer.mk 0 [1, 2, 3])) = some [1, 2, 3] ∧
      piecesWithin (Spim.hal_write (Buffer.mk 0 [1, 2, 3])) FORCE_COPY_BUFFER_SIZE = true) :=
  ⟨by decide, c1_hal_write_outside_ram (Buffer.mk 0 [1, 2, 3]) (by decide)⟩

/-- C2 (evaluation at a failing input): with `tx = [1,2,3]` addressable
(one chunk) and `rx` empty (zero chunks), the claim demands
`max(ceil(3/65535), ceil(0/65535)) = 1` physical transaction (a null
descriptor substituted on the exhausted rx side), but
`transfer_split_uneven` issues 0: the `take_while` in the source uses
`&&`, so iteration stops as soon as EITHER padded chunk stream yields
`None` — the loop runs `min`, not `max`, of the chunk counts (the same
truncation drops tx bytes beyond 65535·min whenever the sides' chunk
counts differ), contradicting the claim and the source's own comment
that it runs until BOTH sides are exhausted. -/
theorem c2_transaction_count_eval :
    txnCount (Spim.transfer_split_uneven ⟨0x20000000, [1, 2, 3]⟩ []) = some 0 ∧
    max ((3 + EASY_DMA_SIZE - 1) / EASY_DMA_SIZE) ((0 + EASY_DMA_SIZE - 1) / EASY_DMA_SIZE)
      = 1 ∧
    (0 : Nat) ≠ 1 := by
  refine ⟨rfl, by decide, by decide⟩

/-- C3 (evaluation at the failing input): `Spim::write` hands
`transfer_split_uneven` an empty receive buffer; the empty side has zero
chunks, so the `&&` in the `take_while` stops the loop immediately and an
addressable, non-empty buffer is written as ZERO transactions — the
concatenated transmit descriptors are `[]`, not the buffer contents the
claim requires. -/
theorem c3_write_transmits_nothing :
    Spim.write ⟨0x20000000, [1, 2, 3]⟩ = .ok [] ∧ ([1, 2, 3] : List Nat) ≠ [] := by
  constructor
  · rfl
  · decide

/-- C7: `transfer_split_uneven` with `len(tx) = 5, len(rx) = 3` issues one
transaction transmitting all 5 bytes (no filler, since the receive side is
shorter) and receiving exactly 3; with `len(tx) = 3, len(rx) = 5` it
issues one transaction whose wire output is the 3 real bytes followed by
2 over-read-character filler bytes, receiving all 5. -/
theorem c7_uneven_five_three (orc : Nat) (tx1 : Buffer) (rx1 : List Nat) (tx2 : Buffer)
    (rx2 : List Nat)
    (h1t : tx1.data.length = 5) (h1r : rx1.length = 3) (h1 : slice_in_ram tx1 = true)
    (h2t : tx2.data.length = 3) (h2r : rx2.length = 5) (h2 : slice_in_ram tx2 = true) :
    Spim.transfer_split_uneven tx1 rx1 = .ok [⟨tx1.data, 3⟩] ∧
    wireTx orc ⟨tx1.data, 3⟩ = tx1.data ∧
    Spim.transfer_split_uneven tx2 rx2 = .ok [⟨tx2.data, 5⟩] ∧
    wireTx orc ⟨tx2.data, 5⟩ = tx2.data ++ List.replicate 2 orc := by
  have hne1 : tx1.data ≠ [] := by
    intro h'
    rw [h'] at h1t
    simp at h1t
  have hne1r : rx1 ≠ [] := by
    intro h'
    rw [h'] at h1r
    simp at h1r
  have hne2 : tx2.data ≠ [] := by
    intro h'
    rw [h'] at h2t
    simp at h2t
  have hne2r : rx2 ≠ [] := by
    intro h'
    rw [h'] at h2r
    simp at h2r
  have e1 : chunksOf EASY_DMA_SIZE tx1.data = [tx1.data] :=
    chunksOf_single _ _ hne1 (by rw [h1t, EASY_DMA_SIZE]; omega)
  have e1r : chunksOf EASY_DMA_SIZE rx1 = [rx1] :=
    chunksOf_single _ _ hne1r (by rw [h1r, EASY_DMA_SIZE]; omega)
  have e2 : chunksOf EASY_DMA_SIZE tx2.data = [tx2.data] :=
    chunksOf_single _ _ hne2 (by rw [h2t, EASY_DMA_SIZE]; omega)
  have e2r : chunksOf EASY_DMA_SIZE rx2 = [rx2] :=
    chunksOf_single _ _ hne2r (by rw [h2r, EASY_DMA_SIZE]; omega)
  refine ⟨?_, ?_, ?_, ?_⟩
  · rw [uneven_ok _ _ h1, e1, e1r]
    simp [List.zip, h1r]
  · simp [wireTx, h1t]
  · rw [uneven_ok _ _ h2, e2, e2r]
    simp [List.zip, h2r]
  · simp [wireTx, h2t, h2r]

theorem c7_uneven_five_three_witness :
    ((Buffer.mk 0x20000000 [1, 2, 3, 4, 5]).data.length = 5 ∧
      ([0, 0, 0] : List Nat).length = 3 ∧
      slice_in_ram (Buffer.mk 0x20000000 [1, 2, 3, 4, 5]) = true ∧
      (Buffer.mk 0x20000000 [9, 9, 9]).data.length = 3 ∧
      ([0, 0, 0, 0, 0] : List Nat).length = 5 ∧
      slice_in_ram (Buffer.mk 0x20000000 [9, 9, 9]) = true) ∧
    (Spim.transfer_split_uneven (Buffer.mk 0x20000000 [1, 2, 3, 4, 5]) [0, 0, 0] =
        .ok [⟨[1, 2, 3, 4, 5], 3⟩] ∧
      wireTx 255 ⟨[1, 2, 3, 4, 5], 3⟩ = [1, 2, 3, 4, 5] ∧
      Spim.transfer_split_uneven (Buffer.mk 0x20000000 [9, 9, 9]) [0, 0, 0, 0, 0] =
        .ok [⟨[9, 9, 9], 5⟩] ∧
      wireTx 255 ⟨[9, 9, 9], 5⟩ = [9, 9, 9] ++ List.replicate 2 255) :=
  ⟨⟨by decide, by decide, by decide, by decide, by decide, by decide⟩,
    c7_uneven_five_three 255 (Buffer.mk 0x20000000 [1, 2, 3, 4, 5]) [0, 0, 0]
      (Buffer.mk 0x20000000 [9, 9, 9]) [0, 0, 0, 0, 0]
      (by decide) (by decide) (by decide) (by decide) (by decide) (by decide)⟩

/-- C8: the in-place `Spim::transfer` on a non-addressable buffer fails
with `DMABufferNotInDataMemory` having issued no physical transaction,
made no bounce copy (it has no bounce path), and left the buffer contents
unchanged. -/
theorem c8_transfer_rejects_non_addressable (resp : Nat → Nat) (buf : Buffer)
    (h : slice_in_ram buf = false) :
    Spim.transfer resp buf =
      ⟨[], buf.data, .error .DMABufferNotInDataMemory⟩ := by
  simp [Spim.transfer, h]

theorem c8_transfer_rejects_non_addressable_witness :
    slice_in_ram (Buffer.mk 0 [7, 8]) = false ∧
    Spim.transfer (fun _ => 0) (Buffer.mk 0 [7, 8]) =
      ⟨[], [7, 8], .error .DMABufferNotInDataMemory⟩ :=
  ⟨by decide, c8_transfer_rejects_non_addressable (fun _ => 0) (Buffer.mk 0 [7, 8]) (by decide)⟩

/-- C10: `slice_in_ram` is exactly `SRAM_LOWER ≤ ptr ∧ ptr + len < SRAM_UPPER`
(strict upper comparison), so a buffer whose end equals `SRAM_UPPER`
exactly — entirely within the half-open region `[SRAM_LOWER, SRAM_UPPER)` —
is rejected with `DMABufferNotInDataMemory` by every guarded operation:
`transfer`, `transfer_split_even`, `transfer_split_uneven`, `write` and
`write_dc`. -/
theorem c10_upper_bound_rejection (b buf : Buffer) (resp : Nat → Nat) (rx rx2 : List Nat)
    (cb : Nat) (h : buf.ptr + buf.data.length = SRAM_UPPER) :
    (slice_in_ram b = true ↔
      (SRAM_LOWER ≤ b.ptr ∧ b.ptr + b.data.length < SRAM_UPPER)) ∧
    slice_in_ram buf = false ∧
    (Spim.transfer resp buf).res = .error .DMABufferNotInDataMemory ∧
    Spim.transfer_split_even buf rx = .error .DMABufferNotInDataMemory ∧
    Spim.transfer_split_uneven buf rx2 = .error .DMABufferNotInDataMemory ∧
    Spim.write buf = .error .DMABufferNotInDataMemory ∧
    Spim.write_dc buf cb = .error .DMABufferNotInDataMemory := by
  have hiff : ∀ c : Buffer, (slice_in_ram c = true ↔
      (SRAM_LOWER ≤ c.ptr ∧ c.ptr + c.data.length < SRAM_UPPER)) := by
    intro c
    simp [slice_in_ram]
  have hf : slice_in_ram buf = false := by
    cases hsr : slice_in_ram buf
    · rfl
    · exfalso
      have := (hiff buf).mp hsr
      omega
  refine ⟨hiff b, hf, ?_, ?_, ?_, ?_, ?_⟩ <;>
    simp [Spim.transfer, Spim.transfer_split_even, Spim.transfer_split_uneven, Spim.write,
      Spim.write_dc, slice_in_ram_or, hf]

theorem c10_upper_bound_rejection_witness :
    ((Buffer.mk 0x2FFFFFFC [1, 2, 3, 4]).ptr +
        (Buffer.mk 0x2FFFFFFC [1, 2, 3, 4]).data.length = SRAM_UPPER) ∧
    ((slice_in_ram (Buffer.mk 0x20000000 []) = true ↔
        (SRAM_LOWER ≤ (Buffer.mk 0x20000000 [] : Buffer).ptr ∧
          (Buffer.mk 0x20000000 [] : Buffer).ptr +
            (Buffer.mk 0x20000000 [] : Buffer).data.length < SRAM_UPPER)) ∧
      slice_in_ram (Buffer.mk 0x2FFFFFFC [1, 2, 3, 4]) = false ∧
      (Spim.transfer (fun _ => 0) (Buffer.mk 0x2FFFFFFC [1, 2, 3, 4])).res =
        .error .DMABufferNotInDataMemory ∧
      Spim.transfer_split_even (Buffer.mk 0x2FFFFFFC [1, 2, 3, 4]) [] =
        .error .DMABufferNotInDataMemory ∧
      Spim.transfer_split_uneven (Buffer.mk 0x2FFFFFFC [1, 2, 3, 4]) [] =
        .error .DMABufferNotInDataMemory ∧
      Spim.write (Buffer.mk 0x2FFFFFFC [1, 2, 3, 4]) = .error .DMABufferNotInDataMemory ∧
      Spim.write_dc (Buffer.mk 0x2FFFFFFC [1, 2, 3, 4]) 1 = .error .DMABufferNotInDataMemory) :=
  ⟨by decide,
    c10_upper_bound_rejection (Buffer.mk 0x20000000 []) (Buffer.mk 0x2FFFFFFC [1, 2, 3, 4])
      (fun _ => 0) [] [] 1 (by decide)⟩

/-- ST7735 driver state from st7735s.rs (`spi` itself carries no state the
claims touch; frames produced for it are returned explicitly). -/
structure Disp where
  rgb : Bool
  inverted : Bool
  dx : Nat
  dy : Nat
  width : Nat
  height : Nat
  deriving DecidableEq

/-- Wrapping `u16` addition (`sx + self.dx` on `u16`). -/
def u16add (a b : Nat) : Nat := (a + b) % 65536

/-- Truncating `i32 as u16` cast. -/
def u16ofInt (x : Int) : Nat := (x % 65536).toNat

/-- `u16::to_be_bytes`: high byte, then low byte. -/
def be2 (w : Nat) : List Nat := [w / 256, w % 256]

/-- Indexed store into the staging array; `none` models the Rust
out-of-bounds panic. -/
def listSet (l : List Nat) (i v : Nat) : Option (List Nat) :=
  if i < l.length then some (l.set i v) else none

/-- The staging loop shared by `write_command_words` and
`write_command_words_iter`: starting at `off`, store each word's two
big-endian bytes at consecutive offsets, returning the array and the
final offset. -/
def writeBEWords : List Nat → Nat → List Nat → Option (List Nat × Nat)
  | arr, off, [] => some (arr, off)
  | arr, off, w :: ws =>
    match listSet arr off (w / 256) with
    | none => none
    | some a1 =>
      match listSet a1 (off + 1) (w % 256) with
      | none => none
      | some a2 => writeBEWords a2 (off + 2) ws

theorem be2_flatten_length (ws : List Nat) :
    ((ws.map be2).flatten).length = 2 * ws.length := by
  induction ws with
  | nil => rfl
  | cons w ws ih =>
    simp only [List.map_cons, List.flatten_cons, List.length_append, ih, be2,
      List.length_cons, List.length_nil]
    omega

theorem set2_splice (arr : List Nat) (off hi lo : Nat) (h : off + 1 < arr.length) :
    (arr.set off hi).set (off + 1) lo = arr.take off ++ [hi, lo] ++ arr.drop (off + 2) := by
  have h0 : off < arr.length := by omega
  have e1 : arr.set off hi = arr.take off ++ hi :: arr.drop (off + 1) := by
    rw [List.set_eq_take_append_cons_drop, if_pos h0]
  have h1 : off + 1 < (arr.set off hi).length := by
    rw [List.length_set]
    exact h
  rw [List.set_eq_take_append_cons_drop, if_pos h1, e1]
  have hAl : (arr.take off).length = off := by
    rw [List.length_take]
    omega
  have htake : (arr.take off ++ hi :: arr.drop (off + 1)).take (off + 1)
      = arr.take off ++ [hi] := by
    have he : off + 1 = (arr.take off).length + 1 := by rw [hAl]
    rw [he, List.take_append]
    rfl
  have hdrop : (arr.take off ++ hi :: arr.drop (off + 1)).drop (off + 1 + 1)
      = arr.drop (off + 2) := by
    have he : off + 1 + 1 = (arr.take off).length + 2 := by rw [hAl]
    rw [he, List.drop_append, hAl]
    show (arr.drop (off + 1)).drop 1 = arr.drop (off + 2)
    rw [List.drop_drop]
  rw [htake, hdrop]
  simp

theorem writeBEWords_cons (arr : List Nat) (off w : Nat) (ws : List Nat)
    (h : off + 1 < arr.length) :
    writeBEWords arr off (w :: ws) =
      writeBEWords ((arr.set off (w / 256)).set (off + 1) (w % 256)) (off + 2) ws := by
  have h0 : off < arr.length := by omega
  simp [writeBEWords, listSet, List.length_set, h0, h]

theorem writeBEWords_cons_oob (arr : List Nat) (off w : Nat) (ws : List Nat)
    (h : ¬ off + 1 < arr.length) :
    writeBEWords arr off (w :: ws) = none := by
  by_cases h0 : off < arr.length
  · simp [writeBEWords, listSet, List.length_set, h0, h]
  · simp [writeBEWords, listSet, h0]

theorem writeBEWords_ok (ws : List Nat) :
    ∀ (arr : List Nat) (off : Nat),
      off + 2 * ws.length ≤ arr.length →
      writeBEWords arr off ws =
        some (arr.take off ++ (ws.map be2).flatten ++ arr.drop (off + 2 * ws.length),
          off + 2 * ws.length) := by
  induction ws with
  | nil =>
    intro arr off h
    simp [writeBEWords, List.take_append_drop]
  | cons w ws ih =>
    intro arr off h
    have hlen : off + 1 < arr.length := by
      simp only [List.length_cons] at h
      omega
    rw [writeBEWords_cons arr off w ws hlen]
    have hsp : (arr.set off (w / 256)).set (off + 1) (w % 256)
        = (arr.take off ++ [w / 256, w % 256]) ++ arr.drop (off + 2) := by
      rw [set2_splice arr off _ _ hlen, List.append_assoc]
    have hlen2 : (off + 2) + 2 * ws.length
        ≤ ((arr.set off (w / 256)).set (off + 1) (w % 256)).length := by
      rw [List.length_set, List.length_set]
      simp only [List.length_cons] at h
      omega
    rw [ih _ _ hlen2, hsp]
    have hAl : (arr.take off ++ [w / 256, w % 256]).length = off + 2 := by
      rw [List.length_append, List.length_take]
      simp only [List.length_cons, List.length_nil]
      omega
    have htake : (((arr.take off ++ [w / 256, w % 256]) ++ arr.drop (off + 2)).take (off + 2))
        = arr.take off ++ [w / 256, w % 256] := List.take_left' hAl
    have hdrop : (((arr.take off ++ [w / 256, w % 256]) ++ arr.drop (off + 2)).drop
          ((off + 2) + 2 * ws.length))
        = arr.drop ((off + 2) + 2 * ws.length) := by
      have he : (off + 2) + 2 * ws.length
          = (arr.take off ++ [w / 256, w % 256]).length + 2 * ws.length := by rw [hAl]
      rw [he, List.drop_append, List.drop_drop, hAl]
    rw [htake, hdrop]
    have hidx : (off + 2) + 2 * ws.length = off + 2 * (w :: ws).length := by
      simp only [List.length_cons]
      omega
    rw [hidx]
    simp only [List.map_cons, List.flatten_cons, be2, List.append_assoc, List.cons_append,
      List.nil_append]

theorem writeBEWords_none (ws : List Nat) :
    ∀ (arr : List Nat) (off : Nat),
      ws ≠ [] → arr.length < off + 2 * ws.length → writeBEWords arr off ws = none := by
  induction ws with
  | nil =>
    intro arr off hne _
    exact absurd rfl hne
  | cons w ws ih =>
    intro arr off _ h
    by_cases h1 : off + 1 < arr.length
    · rw [writeBEWords_cons arr off w ws h1]
      cases hws : ws with
      | nil =>
        exfalso
        subst hws
        simp only [List.length_cons, List.length_nil] at h
        omega
      | cons v vs =>
        rw [← hws]
        apply ih
        · rw [hws]
          simp
        · rw [List.length_set, List.length_set]
          simp only [List.length_cons] at h ⊢
          omega
    · exact writeBEWords_cons_oob arr off w ws h1

namespace ST7735

/-- `ST7735::new` from st7735s.rs: offsets start at zero. -/
def new (rgb inverted : Bool) (width height : Nat) : Disp :=
  { rgb := rgb, inverted := inverted, dx := 0, dy := 0, width := width, height := height }

/-- `ST7735::write_command_words` from st7735s.rs: stage the command byte
and the big-endian parameter words in a 128-byte stack array and send the
first `octets` bytes as one frame (`send_command_data(.., 1)`).  The
returned frame is the byte payload handed to the SPI layer. -/
def write_command_words (cmd : Nat) (params : List Nat) : Option (List Nat) :=
  let spi_data := (List.replicate 128 0).set 0 cmd
  if 0 < params.length then
    (writeBEWords spi_data 1 params).map (fun pr => pr.1.take pr.2)
  else
    some (spi_data.take 1)

/-- `ST7735::write_command_words_iter` from st7735s.rs: same staging loop
over a 32768-byte stack array, no special case for empty input. -/
def write_command_words_iter (cmd : Nat) (params : List Nat) : Option (List Nat) :=
  let spi_data := (List.replicate 32768 0).set 0 cmd
  (writeBEWords spi_data 1 params).map (fun pr => pr.1.take pr.2)

/-- `ST7735::set_offset` from st7735s.rs: pure state mutation. -/
def set_offset (st : Disp) (dx dy : Nat) : Disp :=
  { st with dx := dx, dy := dy }

/-- `ST7735::set_address_window` from st7735s.rs: CASET (0x2A) with the
offset column range, then RASET (0x2B) with the offset row range. -/
def set_address_window (st : Disp) (sx sy ex ey : Nat) : Option (List (List Nat)) :=
  (write_command_words 0x2A [u16add sx st.dx, u16add ex st.dx]).bind (fun f1 =>
    (write_command_words 0x2B [u16add sy st.dy, u16add ey st.dy]).map (fun f2 => [f1, f2]))

/-- `ST7735::write_pixels` from st7735s.rs: RAMWR (0x2C) with the colors
as big-endian words. -/
def write_pixels (colors : List Nat) : Option (List Nat) :=
  write_command_words_iter 0x2C colors

/-- `ST7735::write_pixels_buffered` from st7735s.rs: byte-for-byte the
same body as `write_pixels`. -/
def write_pixels_buffered (colors : List Nat) : Option (List Nat) :=
  write_command_words_iter 0x2C colors

/-- `ST7735::set_pixels` from st7735s.rs: window then pixel stream. -/
def set_pixels (st : Disp) (sx sy ex ey : Nat) (colors : List Nat) :
    Option (List (List Nat)) :=
  (set_address_window st sx sy ex ey).bind (fun fs =>
    (write_pixels colors).map (fun f => fs ++ [f]))

/-- `ST7735::set_pixels_buffered` from st7735s.rs. -/
def set_pixels_buffered (st : Disp) (sx sy ex ey : Nat) (colors : List Nat) :
    Option (List (List Nat)) :=
  (set_address_window st sx sy ex ey).bind (fun fs =>
    (write_pixels_buffered colors).map (fun f => fs ++ [f]))

end ST7735

/-- The per-pixel stroke-or-fill choice of `draw_rectangle` (fill and
stroke both set), st7735s.rs lines 306–317, in `i32` arithmetic. -/
def rectStrokeColor (rect_width rect_height : Int) (stroke_width : Nat)
    (stroke fill : Nat) (i : Int) : Nat :=
  if i % rect_width ≤ (stroke_width : Int) ∨
      rect_width - (stroke_width : Int) ≤ i % rect_width ∨
      i ≤ (stroke_width : Int) * rect_width ∨
      (rect_height - (stroke_width : Int)) * rect_width ≤ i
  then stroke else fill

/-- The color sequence `(0..rect_size).map(...)` that `draw_rectangle`
streams for a fill+stroke styled rectangle. -/
def rectColors (tlx tly brx bry : Int) (stroke_width : Nat) (fill stroke : Nat) : List Nat :=
  let rect_width := brx - tlx
  let rect_height := bry - tly
  let rect_size := rect_width * rect_height
  (List.range rect_size.toNat).map
    (fun k => rectStrokeColor rect_width rect_height stroke_width stroke fill (Int.ofNat k))

/-- `draw_rectangle` from st7735s.rs, `(Some(fill), Some(stroke))` branch:
set a window over the rectangle's corner coordinates (cast `i32 as u16`)
and stream `rectColors` through `set_pixels_buffered`. -/
def ST7735.draw_rectangle_fill_stroke (st : Disp) (tlx tly brx bry : Int)
    (stroke_width : Nat) (fill stroke : Nat) : Option (List (List Nat)) :=
  ST7735.set_pixels_buffered st (u16ofInt tlx) (u16ofInt tly) (u16ofInt brx) (u16ofInt bry)
    (rectColors tlx tly brx bry stroke_width fill stroke)

/-- The display instance used in the examples (`ST7735_COLS`/`ST7735_ROWS`
sized panel). -/
def dispDefault : Disp := ST7735.new true false 132 162

theorem write_command_words_content (cmd : Nat) (params : List Nat)
    (h : 1 + 2 * params.length ≤ 128) :
    ST7735.write_command_words cmd params = some (cmd :: (params.map be2).flatten) := by
  have harr : ((List.replicate 128 (0 : Nat)).set 0 cmd).length = 128 := by
    rw [List.length_set, List.length_replicate]
  have htake1 : ((List.replicate 128 (0 : Nat)).set 0 cmd).take 1 = [cmd] := rfl
  by_cases hpos : 0 < params.length
  · have hok := writeBEWords_ok params ((List.replicate 128 (0 : Nat)).set 0 cmd) 1
      (by rw [harr]; omega)
    have hAl : (((List.replicate 128 (0 : Nat)).set 0 cmd).take 1 ++
        (params.map be2).flatten).length = 1 + 2 * params.length := by
      rw [List.length_append, be2_flatten_length, htake1]
      rfl
    simp only [ST7735.write_command_words, if_pos hpos, hok, Option.map_some']
    rw [List.take_left' hAl, htake1]
    rfl
  · have hnil : params = [] := by
      cases params with
      | nil => rfl
      | cons p ps => simp at hpos
    subst hnil
    simp [ST7735.write_command_words, htake1]

theorem write_command_words_iter_content (cmd : Nat) (params : List Nat)
    (h : 1 + 2 * params.length ≤ 32768) :
    ST7735.write_command_words_iter cmd params = some (cmd :: (params.map be2).flatten) := by
  have harr : ((List.replicate 32768 (0 : Nat)).set 0 cmd).length = 32768 := by
    rw [List.length_set, List.length_replicate]
  have htake1 : ((List.replicate 32768 (0 : Nat)).set 0 cmd).take 1 = [cmd] := rfl
  have hok := writeBEWords_ok params ((List.replicate 32768 (0 : Nat)).set 0 cmd) 1
    (by rw [harr]; omega)
  have hAl : (((List.replicate 32768 (0 : Nat)).set 0 cmd).take 1 ++
      (params.map be2).flatten).length = 1 + 2 * params.length := by
    rw [List.length_append, be2_flatten_length, htake1]
    rfl
  simp only [ST7735.write_command_words_iter, hok, Option.map_some']
  rw [List.take_left' hAl, htake1]
  rfl

theorem write_command_words_iter_oob (cmd : Nat) (params : List Nat)
    (h : 32768 < 1 + 2 * params.length) :
    ST7735.write_command_words_iter cmd params = none := by
  have hne : params ≠ [] := by
    intro h'
    subst h'
    simp at h
  have harr : ((List.replicate 32768 (0 : Nat)).set 0 cmd).length = 32768 := by
    rw [List.length_set, List.length_replicate]
  have hnone := writeBEWords_none params ((List.replicate 32768 (0 : Nat)).set 0 cmd) 1 hne
    (by rw [harr]; omega)
  simp only [ST7735.write_command_words_iter, hnone, Option.map_none']

theorem set_address_window_content (st : Disp) (sx sy ex ey : Nat) :
    ST7735.set_address_window st sx sy ex ey =
      some [0x2A :: (be2 (u16add sx st.dx) ++ be2 (u16add ex st.dx)),
            0x2B :: (be2 (u16add sy st.dy) ++ be2 (u16add ey st.dy))] := by
  have h1 := write_command_words_content 0x2A [u16add sx st.dx, u16add ex st.dx] (by simp)
  have h2 := write_command_words_content 0x2B [u16add sy st.dy, u16add ey st.dy] (by simp)
  simp only [List.map_cons, List.map_nil, List.flatten_cons, List.flatten_nil,
    List.append_nil] at h1 h2
  simp only [ST7735.set_address_window, h1, h2, Option.some_bind, Option.map_some']

/-- C4 (evaluation at the failing input): for the 10×10 fill+stroke
rectangle at the origin (`top_left = (0,0)`, `bottom_right = (10,10)`,
`rect_width = rect_height = 10`) with `stroke_width = 1`, fill color 2 and
stroke color 1, the streamed pixel at index 21 — row 2, column 1, an
interior pixel by the claim (neither row nor column is 0 or 9) — is the
STROKE color: the source tests `i % rect_width <= stroke_width`, so
column 1 (and the whole of `i <= rect_width`) is painted stroke, making
the left/top borders `stroke_width + 1` pixels wide while the
right/bottom borders are `stroke_width` wide. -/
theorem c4_stroke_rect_eval :
    ST7735.draw_rectangle_fill_stroke dispDefault 0 0 10 10 1 2 1 =
      ST7735.set_pixels_buffered dispDefault 0 0 10 10 (rectColors 0 0 10 10 1 2 1) ∧
    (rectColors 0 0 10 10 1 2 1).get? 21 = some 1 ∧
    (21 : Nat) % 10 = 1 ∧ (21 : Nat) / 10 = 2 ∧ (1 : Nat) ≠ 2 := by
  refine ⟨rfl, ?_, by decide, by decide, by decide⟩
  decide

/-- C5 (counterexample): `set_pixels` with 16384 colors panics — the
staging loop of `write_command_words_iter` runs its offset past the end of
the 32768-byte stack array (the last color would be stored at indices
32767 and 32768, and index 32768 is out of bounds), so arbitrary-length
color sequences are NOT supported. -/
theorem c5_set_pixels_overflow_eval :
    ST7735.set_pixels dispDefault 0 0 131 161 (List.replicate 16384 0) = none := by
  have hw := set_address_window_content dispDefault 0 0 131 161
  have hp : ST7735.write_pixels (List.replicate 16384 0) = none := by
    apply write_command_words_iter_oob
    rw [List.length_replicate]
    norm_num
  simp only [ST7735.set_pixels, hw, hp, Option.some_bind, Option.map_none']

/-- C5 (amended): for every sequence of at most 16383 colors,
`set_pixels` sets the address window and then issues a single RAMWR
(0x2C) write-command payload with each color encoded as 2 big-endian
bytes in order, and the buffered variant produces the identical frames. -/
theorem c5_set_pixels_bounded (st : Disp) (sx sy ex ey : Nat) (colors : List Nat)
    (h : colors.length ≤ 16383) :
    ST7735.set_pixels st sx sy ex ey colors =
      some [0x2A :: (be2 (u16add sx st.dx) ++ be2 (u16add ex st.dx)),
            0x2B :: (be2 (u16add sy st.dy) ++ be2 (u16add ey st.dy)),
            0x2C :: (colors.map be2).flatten] ∧
    ST7735.set_pixels_buffered st sx sy ex ey colors =
      ST7735.set_pixels st sx sy ex ey colors := by
  have hw := set_address_window_content st sx sy ex ey
  have hp : ST7735.write_pixels colors = some (0x2C :: (colors.map be2).flatten) :=
    write_command_words_iter_content 0x2C colors (by omega)
  constructor
  · simp only [ST7735.set_pixels, hw, hp]
    rfl
  · simp only [ST7735.set_pixels, ST7735.set_pixels_buffered, ST7735.write_pixels,
      ST7735.write_pixels_buffered]

theorem c5_set_pixels_bounded_witness :
    (([43981] : List Nat).length ≤ 16383) ∧
    (ST7735.set_pixels dispDefault 1 2 3 4 [43981] =
        some [0x2A :: (be2 (u16add 1 dispDefault.dx) ++ be2 (u16add 3 dispDefault.dx)),
              0x2B :: (be2 (u16add 2 dispDefault.dy) ++ be2 (u16add 4 dispDefault.dy)),
              0x2C :: (([43981] : List Nat).map be2).flatten] ∧
      ST7735.set_pixels_buffered dispDefault 1 2 3 4 [43981] =
        ST7735.set_pixels dispDefault 1 2 3 4 [43981]) :=
  ⟨by decide, c5_set_pixels_bounded dispDefault 1 2 3 4 [43981] (by decide)⟩

/-- C6: with stored offset `dx = dy = 0`, `set_address_window(sx, sy, ex,
ey)` issues CASET (0x2A) with parameters `(sx, ex)` then RASET (0x2B)
with parameters `(sy, ey)`, each coordinate as 2 big-endian bytes. -/
theorem c6_set_address_window_roundtrip (st : Disp) (sx sy ex ey : Nat)
    (hdx : st.dx = 0) (hdy : st.dy = 0)
    (hsx : sx < 65536) (hsy : sy < 65536) (hex : ex < 65536) (hey : ey < 65536) :
    ST7735.set_address_window st sx sy ex ey =
      some [[0x2A, sx / 256, sx % 256, ex / 256, ex % 256],
            [0x2B, sy / 256, sy % 256, ey / 256, ey % 256]] := by
  rw [set_address_window_content, hdx, hdy]
  simp only [u16add, Nat.add_zero, be2]
  rw [Nat.mod_eq_of_lt hsx, Nat.mod_eq_of_lt hsy, Nat.mod_eq_of_lt hex, Nat.mod_eq_of_lt hey]
  rfl

theorem c6_set_address_window_roundtrip_witness :
    (dispDefault.dx = 0 ∧ dispDefault.dy = 0 ∧ (10 : Nat) < 65536 ∧ (20 : Nat) < 65536 ∧
      (50 : Nat) < 65536 ∧ (60 : Nat) < 65536) ∧
    ST7735.set_address_window dispDefault 10 20 50 60 =
      some [[0x2A, 0x00, 0x0A, 0x00, 0x32], [0x2B, 0x00, 0x14, 0x00, 0x3C]] :=
  ⟨⟨rfl, rfl, by decide, by decide, by decide, by decide⟩,
    c6_set_address_window_roundtrip dispDefault 10 20 50 60 rfl rfl
      (by decide) (by decide) (by decide) (by decide)⟩

/-- C9: `set_offset` is a pure state mutation (no frame is produced) and
is idempotent — calling it twice with the same arguments yields the same
driver state and hence the same frames for every subsequent
window-setting command as calling it once. -/
theorem c9_set_offset_idempotent (st : Disp) (dx dy : Nat) :
    ST7735.set_offset (ST7735.set_offset st dx dy) dx dy = ST7735.set_offset st dx dy ∧
    ∀ sx sy ex ey : Nat,
      ST7735.set_address_window (ST7735.set_offset (ST7735.set_offset st dx dy) dx dy)
          sx sy ex ey
        = ST7735.set_address_window (ST7735.set_offset st dx dy) sx sy ex ey :=
  ⟨rfl, fun _ _ _ _ => rfl⟩
